import Mathlib

/-!
Shallow embedding of the st-core block engine (`src/core/block.go`) and the
built-in kernel library (`src/core/library.go`).

Go messages are `interface` values holding float64, bool, string, nil,
`[]interface` slices, `map[string]interface` maps, or `*stcoreError`.
Numeric payloads are modelled as integers: no claim under consideration
depends on float-specific arithmetic, only on the dynamic-type dispatch.
Go runtime panics (failed type assertions, out-of-range indexing,
comparison of uncomparable types) are modelled as an explicit `panic`
result constructor, and `log.Fatal` as an explicit `fatal` outcome.
-/

namespace STCore

/-- The dynamic message value flowing between blocks. -/
inductive Message where
  | num (x : Int)
  | bool (b : Bool)
  | str (s : String)
  | null
  | seq (xs : List Message)
  | obj (kvs : List (String × Message))
  | err (e : String)

/-- Type `MessageMap` (block.go): a Go map from route index to message, as an
association list. -/
abbrev MessageMap := List (Nat × Message)

/-- Indexing a Go map: a missing key yields the zero value, the nil
interface, i.e. the null message. -/
def mget (m : MessageMap) (i : Nat) : Message :=
  match m.lookup i with
  | some v => v
  | none => Message.null

/-- Outcome of one kernel invocation.  `ok out` is a normal return (the
kernel returned a nil interrupt) with the final output map; `panic` is a Go
runtime panic; `interrupt` means the kernel returned the interrupt it read
from the interrupt channel. -/
inductive KResult where
  | ok (out : MessageMap)
  | panic (msg : String)
  | interrupt

/-- Go `==` on two interface values.  Identical comparable dynamic types
compare by value; distinct dynamic types compare unequal; identical
uncomparable dynamic types (slices, maps) cause a runtime panic, modelled
as `none`.  Errors are `*stcoreError` pointers: two messages built by
separate `NewError` allocations are distinct pointers, modelled as `false`. -/
def goEq : Message → Message → Option Bool
  | Message.num a, Message.num b => some (a == b)
  | Message.bool a, Message.bool b => some (a == b)
  | Message.str a, Message.str b => some (a == b)
  | Message.null, Message.null => some true
  | Message.seq _, Message.seq _ => none
  | Message.obj _, Message.obj _ => none
  | Message.err _, Message.err _ => some false
  | _, _ => some false

/-- Kernel `First` (library.go:68): true on the first invocation, false after,
using the persistent `internal` map.  Returns the output map and the
updated internal map.  The `struct` token stored at key 0 is modelled as
`null`. -/
def firstKernel (internal : MessageMap) : MessageMap × MessageMap :=
  match internal.lookup 0 with
  | none => ([(0, Message.bool true)], (0, Message.null) :: internal)
  | some _ => ([(0, Message.bool false)], internal)

/-- Kernel `Head` (library.go:201): `arr[0]` on output 0 and `arr[1:len(arr)]` on
output 1; a non-array input produces an error-typed output; an empty array
makes `arr[0]` panic. -/
def headKernel (inm : MessageMap) : KResult :=
  match mget inm 0 with
  | Message.seq arr =>
    match arr.head? with
    | none => KResult.panic "runtime error: index out of range"
    | some a => KResult.ok [(0, a), (1, Message.seq arr.tail)]
  | _ => KResult.ok [(0, Message.err "head requires an array")]

/-- Kernel `Tail` (library.go:220): as written in the source, output 0 is
`arr[len(arr)]`, and output 1 is `arr[0 : len(arr)-1]`. -/
def tailKernel (inm : MessageMap) : KResult :=
  match mget inm 0 with
  | Message.seq arr =>
    match arr.get? arr.length with
    | none => KResult.panic "runtime error: index out of range"
    | some a => KResult.ok [(0, a), (1, Message.seq (arr.take (arr.length - 1)))]
  | _ => KResult.ok [(0, Message.err "tail requires an array")]

/-- Kernel `Append` (library.go:238): `append(arr, in[0])` where `arr = in[1]`. -/
def appendKernel (inm : MessageMap) : KResult :=
  match mget inm 1 with
  | Message.seq arr => KResult.ok [(0, Message.seq (arr ++ [mget inm 0]))]
  | _ => KResult.ok [(0, Message.err "Append requires an array")]

/-- Kernel `Set` (library.go:110): `in[0].(string)` is an unchecked type
assertion — a non-string key is a runtime panic, not an error output. -/
def setKernel (inm : MessageMap) : KResult :=
  match mget inm 0 with
  | Message.str k => KResult.ok [(0, Message.obj [(k, mget inm 1)])]
  | _ => KResult.panic "interface conversion: interface is not string"

/-- Kernel `Delay` (library.go:86): `in[1].(string)` is an unchecked type
assertion (panic on non-string); an unparseable duration string puts the
parse error on output 0; otherwise the kernel waits on the timer against
the interrupt channel.  The duration parser (Go `time.ParseDuration`) and
the timer race are parameters of the model. -/
def delayKernel (parseDuration : String → Except String Nat) (timerFires : Bool)
    (inm : MessageMap) : KResult :=
  match mget inm 1 with
  | Message.str s =>
    match parseDuration s with
    | Except.error e => KResult.ok [(0, Message.err e)]
    | Except.ok _ =>
      if timerFires then KResult.ok [(0, mget inm 0)] else KResult.interrupt
  | _ => KResult.panic "interface conversion: interface is not string"

/-- Kernel `Addition` (library.go:255): checked assertions; a non-float input
yields an error-typed output on output 0 and a nil interrupt. -/
def additionKernel (inm : MessageMap) : KResult :=
  match mget inm 0 with
  | Message.num a1 =>
    match mget inm 1 with
    | Message.num a2 => KResult.ok [(0, Message.num (a1 + a2))]
    | _ => KResult.ok [(0, Message.err "Addition requires floats")]
  | _ => KResult.ok [(0, Message.err "Addition requires floats")]

/-- Kernel `EqualTo` (library.go:431): `out[0] = in[0] == in[1]` — Go interface
comparison, which panics on identical uncomparable dynamic types. -/
def equalToKernel (inm : MessageMap) : KResult :=
  match goEq (mget inm 0) (mget inm 1) with
  | some b => KResult.ok [(0, Message.bool b)]
  | none => KResult.panic "runtime error: comparing uncomparable type"

/-- Kernel `NotEqualTo` (library.go:443): `out[0] = in[0] != in[1]`. -/
def notEqualToKernel (inm : MessageMap) : KResult :=
  match goEq (mget inm 0) (mget inm 1) with
  | some b => KResult.ok [(0, Message.bool (!b))]
  | none => KResult.panic "runtime error: comparing uncomparable type"

/-- Scalar (comparable) message variants: number, boolean, string, null. -/
def isScalar : Message → Bool
  | Message.num _ => true
  | Message.bool _ => true
  | Message.str _ => true
  | Message.null => true
  | _ => false

/-- Non-number test, for variant-check statements. -/
def isNum : Message → Bool
  | Message.num _ => true
  | _ => false

/-- Non-string test, for variant-check statements. -/
def isStr : Message → Bool
  | Message.str _ => true
  | _ => false

/-- Array test, for variant-check statements. -/
def isSeq : Message → Bool
  | Message.seq _ => true
  | _ => false

/-! ## Paths and `fetch.Run` -/

/-- One component of a parsed path query: a dotted key or an array index. -/
inductive Selector where
  | key (k : String)
  | idx (n : Nat)

/-- Modelled from the spec: the path query language of the external
`go-fetch` dependency (github.com/nikhan/go-fetch), which is not under
src/.  A parsed query is a chain of selectors; the identity path `.` is
the empty chain (spec section 6: `.` identity, `.key` field select,
`[n]` zero-based array index). -/
abbrev Path := List Selector

/-- Modelled from the spec: `fetch.Run(q, m)` of the external `go-fetch`
dependency.  Its Go signature returns `(Message, error)`; a selector that
does not resolve against the message is reported through the error
return, which `receive` (block.go:147) checks. -/
def fetchRun : Path → Message → Except String Message
  | [], m => Except.ok m
  | Selector.key k :: rest, Message.obj kvs =>
    match kvs.lookup k with
    | some v => fetchRun rest v
    | none => Except.error ("key not found: " ++ k)
  | Selector.key k :: _, _ => Except.error ("cannot select key " ++ k)
  | Selector.idx n :: rest, Message.seq xs =>
    match xs.get? n with
    | some v => fetchRun rest v
    | none => Except.error "index out of range"
  | Selector.idx _ :: _, _ => Except.error "cannot index non-array"

/-! ## Routes and `receive` -/

/-- A `Route` (input port): name, current path, optional pinned value.
The message channel is modelled by the event list fed to `receive`. -/
structure Route where
  name : String
  path : Path
  value : Option Message

/-- One event observed at a `receive` select point: either a message
arrives on the route's channel or an interrupt arrives. -/
inductive RecvEv where
  | msg (m : Message)
  | intr

/-- Outcome of `receive` (block.go:129): `filled` means every input index
has a value and receive returns a nil interrupt; `interrupted` returns
the interrupt function to the main loop; `fatal` is `log.Fatal(err)` at
block.go:148 — the whole process exits. -/
inductive RecvRes where
  | filled (iv : MessageMap)
  | interrupted (iv : MessageMap) (rest : List RecvEv)
  | fatal (e : String)

/-- The loop body of `receive` (block.go:131-153), indexed by route id.
Skips inputs already present in the cycle's input map, copies a pinned
value when set, and otherwise consumes the next channel event.  An empty
event list means the block stays parked on the select, modelled as an
interruption with no further events. -/
def receiveAux : Nat → List Route → MessageMap → List RecvEv → RecvRes
  | _, [], iv, _ => RecvRes.filled iv
  | id, r :: rs, iv, evs =>
    match iv.lookup id with
    | some _ => receiveAux (id+1) rs iv evs
    | none =>
      match r.value with
      | some v => receiveAux (id+1) rs (iv ++ [(id, v)]) evs
      | none =>
        match evs with
        | RecvEv.msg m :: evs' =>
          match fetchRun r.path m with
          | Except.ok v => receiveAux (id+1) rs (iv ++ [(id, v)]) evs'
          | Except.error e => RecvRes.fatal e
        | RecvEv.intr :: evs' => RecvRes.interrupted iv evs'
        | [] => RecvRes.interrupted iv []

/-- Function `receive` (block.go:129): gather one value per input route. -/
def receive (inputs : List Route) (iv : MessageMap) (evs : List RecvEv) : RecvRes :=
  receiveAux 0 inputs iv evs

/-! ## Block state, `NewBlock` and `crank` -/

/-- A delivery-manifest key (block.go `ManifestPair`): output name paired
with connection; connections are opaque handles, modelled as naturals. -/
abbrev MPair := String × Nat

/-- Deleting one key from a Go map modelled as an association list. -/
def mdelete {α β : Type} [DecidableEq α] (k : α) : List (α × β) → List (α × β)
  | [] => []
  | (k', v) :: rest => if k' = k then mdelete k rest else (k', v) :: mdelete k rest

/-- Loop `for k := range m, delete(m, k)` over a Go map (crank, block.go:192). -/
def mclear {α β : Type} [DecidableEq α] (m : List (α × β)) : List (α × β) :=
  (m.map Prod.fst).foldl (fun acc k => mdelete k acc) m

/-- Deleting one element from a Go set-map modelled as a list. -/
def sdelete {α : Type} [DecidableEq α] (k : α) (l : List α) : List α :=
  l.filter (fun x => x ≠ k)

/-- Loop `for k := range m, delete(m, k)` over the manifest set (block.go:198). -/
def sclear {α : Type} [DecidableEq α] (s : List α) : List α :=
  s.foldl (fun acc k => sdelete k acc) s

/-- The cycle-local `BlockState` (block.go:30-35): input-value map,
output-value map, delivery manifest, `Processed` flag.  Note: there is no
internal scratch map in this structure. -/
structure BlockState where
  inputValues : MessageMap
  outputValues : MessageMap
  manifest : List MPair
  processed : Bool

/-- The state a fresh block starts with (`NewBlock`, block.go:29-35):
three empty maps and `Processed = false`. -/
def newBlockState : BlockState :=
  { inputValues := [], outputValues := [], manifest := [], processed := false }

/-- The routes a fresh block starts with (`NewBlock`, block.go:12-20):
each input gets the identity path `.` and no pinned value. -/
def newBlockRoutes (inputNames : List String) : List Route :=
  inputNames.map fun n => { name := n, path := [], value := none }

/-- Function `crank` (block.go:191): delete every key of the input map, the output
map and the manifest, and reset `Processed`. -/
def crank (s : BlockState) : BlockState :=
  { inputValues := mclear s.inputValues,
    outputValues := mclear s.outputValues,
    manifest := sclear s.manifest,
    processed := false }

/-! ## `broadcast`

The connection sets of the outputs are Go maps; their iteration order is
unspecified, so the model takes an arbitrary enumeration list.  At each
send select, the schedule decides whether the send wins (`true`) or an
interrupt wins (`false`); an exhausted schedule means the remaining
selects all deliver.  The `sends` list records every delivered message as
its manifest pair. -/

/-- An output port (block.go `Output`): name and connection set. -/
structure Output where
  name : String
  connections : List Nat

/-- The inner loop of `broadcast` (block.go:168-184) over one output's
connections: skip pairs already in the manifest, otherwise deliver and
record, or return on interrupt.  Result: manifest, send log, remaining
schedule, and whether an interrupt cut the loop short. -/
def broadcastConns (name : String) :
    List Nat → List MPair → List MPair → List Bool →
    List MPair × List MPair × List Bool × Bool
  | [], man, log, sch => (man, log, sch, false)
  | c :: cs, man, log, sch =>
    if (name, c) ∈ man then
      broadcastConns name cs man log sch
    else
      match sch with
      | [] => broadcastConns name cs ((name, c) :: man) ((name, c) :: log) []
      | true :: sch' => broadcastConns name cs ((name, c) :: man) ((name, c) :: log) sch'
      | false :: sch' => (man, log, sch', true)

/-- Function `broadcast` (block.go:158): outputs in order; an output with no
connections parks on the interrupt channel (block.go:162-167), so the
attempt ends interrupted. -/
def broadcastOuts :
    List Output → List MPair → List MPair → List Bool →
    List MPair × List MPair × List Bool × Bool
  | [], man, log, sch => (man, log, sch, false)
  | o :: os, man, log, sch =>
    if o.connections = [] then (man, log, sch, true)
    else
      match broadcastConns o.name o.connections man log sch with
      | (man', log', sch', true) => (man', log', sch', true)
      | (man', log', sch', false) => broadcastOuts os man' log' sch'

/-- The broadcast phase of one cycle: `Serve` re-enters `broadcast` from
the top after each continuing interrupt (block.go:65-69), keeping the
manifest.  One schedule per attempt; the final `Bool` is `true` when some
attempt ran to completion. -/
def runBroadcast (outs : List Output) :
    List (List Bool) → List MPair → List MPair →
    List MPair × List MPair × Bool
  | [], man, log => (man, log, false)
  | sch :: rest, man, log =>
    match broadcastOuts outs man log sch with
    | (man', log', _, true) => runBroadcast outs rest man' log'
    | (man', log', _, false) => (man', log', true)

/-- All (output-name, connection) pairs a cycle is to service. -/
def cyclePairs (outs : List Output) : List MPair :=
  outs.flatMap fun o => o.connections.map fun c => (o.name, c)

/-- Number of deliveries of one (output-name, connection) pair recorded
in a send log. -/
def pairCount (p : MPair) (l : List MPair) : Nat :=
  (l.filter (fun q => q = p)).length

/-! ## The `Serve` inner loop

`Serve` (block.go:46-78) runs receive, then the kernel when `Processed`
is false, then `Processed = true`, then broadcast, then crank; any
interrupt breaks out of the body, and after the interrupt continues, the
body restarts from receive.  The model captures this control flow: an
`Attempt` records, for one pass through the body, whether receive
returned an interrupt, whether the kernel (if invoked) returned one, and
whether broadcast returned one.  `kernelRuns` instruments the number of
kernel invocations within the cycle. -/

/-- Interrupt outcomes of one pass through the `Serve` loop body. -/
structure Attempt where
  rIntr : Bool
  kIntr : Bool
  bIntr : Bool

/-- Cycle-control state: the `Processed` flag and the count of kernel
invocations made so far in the current cycle. -/
structure ServeState where
  processed : Bool
  kernelRuns : Nat

/-- One pass through the `Serve` loop body (block.go:51-70).  Returns the
new state and whether the pass reached `crank` (completing the cycle).
Mirrors the source exactly: the kernel runs whenever `Processed` is
false; when it returns an interrupt the body breaks *before*
`Processed = true` (block.go:59-63); `crank` resets `Processed`. -/
def serveBody (s : ServeState) (a : Attempt) : ServeState × Bool :=
  if a.rIntr then (s, false)
  else if s.processed = false then
    let s1 : ServeState := ⟨s.processed, s.kernelRuns + 1⟩
    if a.kIntr then (s1, false)
    else
      let s2 : ServeState := ⟨true, s1.kernelRuns⟩
      if a.bIntr then (s2, false) else (⟨false, s2.kernelRuns⟩, true)
  else
    let s2 : ServeState := ⟨true, s.kernelRuns⟩
    if a.bIntr then (s2, false) else (⟨false, s2.kernelRuns⟩, true)

/-- Run loop-body passes until one completes the cycle.  The second
component is `true` when the cycle completed within the given passes. -/
def runCycle (s : ServeState) : List Attempt → ServeState × Bool
  | [] => (s, false)
  | a :: rest =>
    match serveBody s a with
    | (s', true) => (s', true)
    | (s', false) => runCycle s' rest

/-! ## The kernel as the engine invokes it

block.go:58 invokes the kernel as
`b.kernel(b.state.inputValues, b.state.outputValues, b.routing.InterruptChan)`:
the cycle's input map, the (crank-cleared) output map, and the interrupt
channel — nothing else.  `BlockState` has no internal scratch map.  The
engine-side kernel is therefore a function of the cycle's input map
alone, producing the written output map and whether it returned an
interrupt. -/
def EngineKernel : Type := MessageMap → MessageMap × Bool

/-- The output map a cycle produces when the engine invokes kernel `k` on
input map `iv` (compute phase, block.go:57-63). -/
def engineCycleOutput (k : EngineKernel) (iv : MessageMap) : MessageMap :=
  (k iv).1

/-- Outputs of the library `first` kernel over `n` successive invocations
threading its internal map, as `Serve` would have to do cycle after
cycle. -/
def firstOutputs : Nat → MessageMap → List MessageMap
  | 0, _ => []
  | n+1, internal =>
    match firstKernel internal with
    | (out, internal') => out :: firstOutputs n internal'

/-! ## Helper lemmas -/

theorem mdelete_mem {α β : Type} [DecidableEq α] (k : α) (l : List (α × β)) (p : α × β) :
    p ∈ mdelete k l ↔ p ∈ l ∧ p.1 ≠ k := by
  induction l with
  | nil => simp [mdelete]
  | cons q rest ih =>
    obtain ⟨k', v⟩ := q
    simp only [mdelete]
    split_ifs with h
    · subst h
      rw [ih]
      simp only [List.mem_cons]
      constructor
      · rintro ⟨hp, hne⟩
        exact ⟨Or.inr hp, hne⟩
      · rintro ⟨hp | hp, hne⟩
        · subst hp; simp at hne
        · exact ⟨hp, hne⟩
    · simp only [List.mem_cons, ih]
      constructor
      · rintro (rfl | ⟨hp, hne⟩)
        · exact ⟨Or.inl rfl, h⟩
        · exact ⟨Or.inr hp, hne⟩
      · rintro ⟨rfl | hp, hne⟩
        · exact Or.inl rfl
        · exact Or.inr ⟨hp, hne⟩

theorem mdelete_foldl_mem {α β : Type} [DecidableEq α] (ks : List α)
    (l : List (α × β)) (p : α × β)
    (h : p ∈ ks.foldl (fun acc k => mdelete k acc) l) : p ∈ l ∧ p.1 ∉ ks := by
  induction ks generalizing l with
  | nil => exact ⟨h, by simp⟩
  | cons k ks ih =>
    rw [List.foldl_cons] at h
    obtain ⟨h1, h2⟩ := ih (mdelete k l) h
    rw [mdelete_mem] at h1
    simp only [List.mem_cons, not_or]
    exact ⟨h1.1, h1.2, h2⟩

theorem mclear_eq_nil {α β : Type} [DecidableEq α] (m : List (α × β)) : mclear m = [] := by
  rw [List.eq_nil_iff_forall_not_mem]
  intro p hp
  obtain ⟨h1, h2⟩ := mdelete_foldl_mem (m.map Prod.fst) m p hp
  exact h2 (List.mem_map_of_mem Prod.fst h1)

theorem sdelete_mem {α : Type} [DecidableEq α] (k : α) (l : List α) (p : α) :
    p ∈ sdelete k l ↔ p ∈ l ∧ p ≠ k := by
  simp [sdelete]

theorem sdelete_foldl_mem {α : Type} [DecidableEq α] (ks : List α) (l : List α) (p : α)
    (h : p ∈ ks.foldl (fun acc k => sdelete k acc) l) : p ∈ l ∧ p ∉ ks := by
  induction ks generalizing l with
  | nil => exact ⟨h, by simp⟩
  | cons k ks ih =>
    rw [List.foldl_cons] at h
    obtain ⟨h1, h2⟩ := ih (sdelete k l) h
    rw [sdelete_mem] at h1
    simp only [List.mem_cons, not_or]
    exact ⟨h1.1, h1.2, h2⟩

theorem sclear_eq_nil {α : Type} [DecidableEq α] (s : List α) : sclear s = [] := by
  rw [List.eq_nil_iff_forall_not_mem]
  intro p hp
  obtain ⟨h1, h2⟩ := sdelete_foldl_mem s s p hp
  exact h2 h1

theorem crank_eq_newBlockState (s : BlockState) : crank s = newBlockState := by
  simp [crank, newBlockState, mclear_eq_nil, sclear_eq_nil]

theorem goEq_scalar (a b : Message) (ha : isScalar a = true) (hb : isScalar b = true) :
    ∃ v : Bool, goEq a b = some v ∧ (v = true ↔ a = b) := by
  cases a <;> cases b <;> simp_all [isScalar, goEq]

theorem firstOutputs_replicate (n : Nat) (internal : MessageMap) (v : Message)
    (h : internal.lookup 0 = some v) :
    firstOutputs n internal = List.replicate n [(0, Message.bool false)] := by
  induction n with
  | zero => simp [firstOutputs]
  | succ n ih => simp [firstOutputs, firstKernel, h, ih, List.replicate]

/-! ## Claim C1 — path-resolution failure during receive -/

/-- C1, counterexample.  A message `⟨"a": 1⟩` arriving on a route whose
path selects key `"b"` fails to resolve; `receive` then reaches
`log.Fatal(err)` (block.go:148), i.e. the process exits — it does not
store null in the input map and continue, contrary to the claim that
path-resolution failure never terminates the block or the runtime. -/
theorem c1_path_miss_is_fatal :
    receive [{ name := "in", path := [Selector.key "b"], value := none }] []
        [RecvEv.msg (Message.obj [("a", Message.num 1)])]
      = RecvRes.fatal "key not found: b" := rfl

/-- C1, amended: whenever a route has no pinned value and the arriving
message fails to resolve against the route's path, `receive` calls
`log.Fatal` with the resolution error and the process terminates; no
value — null or otherwise — is stored in the cycle's input map. -/
theorem c1_amended_fatal (r : Route) (m : Message) (e : String)
    (hv : r.value = none) (he : fetchRun r.path m = Except.error e) :
    receive [r] [] [RecvEv.msg m] = RecvRes.fatal e := by
  simp [receive, receiveAux, List.lookup, hv, he]

/-- C1, witness for the amended theorem at the concrete failing input. -/
theorem c1_amended_fatal_applied :
    ({ name := "in", path := [Selector.key "b"], value := none } : Route).value = none ∧
    fetchRun [Selector.key "b"] (Message.obj [("a", Message.num 1)])
      = Except.error "key not found: b" ∧
    receive [{ name := "in", path := [Selector.key "b"], value := none }] []
        [RecvEv.msg (Message.obj [("a", Message.num 1)])]
      = RecvRes.fatal "key not found: b" :=
  ⟨rfl, rfl, c1_amended_fatal _ _ _ rfl rfl⟩

/-! ## Claim C2 — kernel type-mismatch policy -/

/-- C2, counterexample.  The `set` kernel's `in[0].(string)` is an
unchecked type assertion (library.go:116): a numeric key produces a Go
runtime panic, not an error-typed message on output 0. -/
theorem c2_set_panics_on_non_string :
    setKernel [(0, Message.num 3), (1, Message.null)]
      = KResult.panic "interface conversion: interface is not string" := rfl

/-- C2, amended: kernels with checked variant tests (such as `addition`)
emit an error-typed message on output 0 and return no interrupt when an
input fails the check; but `set` and `delay` perform unchecked type
assertions and panic when the key (resp. duration) is not a string;
`delay` emits an error-typed output only for a string duration that fails
to parse. -/
theorem c2_amended_mismatch_policy (m1 m2 : Message)
    (parse : String → Except String Nat) (tf : Bool) (s e : String)
    (h1 : isNum m1 = false) (h2 : isStr m2 = false)
    (hp : parse s = Except.error e) :
    additionKernel [(0, m1), (1, Message.num 2)]
        = KResult.ok [(0, Message.err "Addition requires floats")] ∧
    setKernel [(0, m2), (1, Message.null)]
        = KResult.panic "interface conversion: interface is not string" ∧
    delayKernel parse tf [(0, Message.null), (1, m2)]
        = KResult.panic "interface conversion: interface is not string" ∧
    delayKernel parse tf [(0, Message.null), (1, Message.str s)]
        = KResult.ok [(0, Message.err e)] := by
  refine ⟨?_, ?_, ?_, ?_⟩
  · cases m1 <;> simp_all [additionKernel, mget, List.lookup, isNum]
  · cases m2 <;> simp_all [setKernel, mget, List.lookup, isStr]
  · cases m2 <;> simp_all [delayKernel, mget, List.lookup, isStr]
  · simp [delayKernel, mget, List.lookup, hp]

/-- C2, witness for the amended theorem at concrete inputs. -/
theorem c2_amended_mismatch_policy_applied :
    isNum (Message.str "x") = false ∧ isStr (Message.num 3) = false ∧
    (fun _ : String => (Except.error "bad" : Except String Nat)) "zzz"
      = Except.error "bad" ∧
    (additionKernel [(0, Message.str "x"), (1, Message.num 2)]
        = KResult.ok [(0, Message.err "Addition requires floats")] ∧
    setKernel [(0, Message.num 3), (1, Message.null)]
        = KResult.panic "interface conversion: interface is not string" ∧
    delayKernel (fun _ => Except.error "bad") true [(0, Message.null), (1, Message.num 3)]
        = KResult.panic "interface conversion: interface is not string" ∧
    delayKernel (fun _ => Except.error "bad") true [(0, Message.null), (1, Message.str "zzz")]
        = KResult.ok [(0, Message.err "bad")]) :=
  ⟨rfl, rfl, rfl, c2_amended_mismatch_policy _ _ _ _ _ _ rfl rfl rfl⟩

/-! ## Claim C5 — the tail kernel -/

/-- C5: the `tail` kernel reads `arr[len(arr)]` (library.go:230), which
is out of bounds for every array, so the kernel panics instead of
emitting the last element and the all-but-last prefix. -/
theorem c5_tail_indexes_past_end (arr : List Message) :
    tailKernel [(0, Message.seq arr)]
      = KResult.panic "runtime error: index out of range" := by
  have h : arr.get? arr.length = none := by
    simp [List.get?_eq_none]
  simp [tailKernel, mget, List.lookup, h]

/-- C5, witness: the kernel panics already on the one-element array. -/
theorem c5_tail_indexes_past_end_applied :
    tailKernel [(0, Message.seq [Message.num 1])]
      = KResult.panic "runtime error: index out of range" :=
  c5_tail_indexes_past_end [Message.num 1]

/-! ## Claim C6 — what the engine passes to the kernel -/

/-- C6: block.go:58 invokes the kernel with the input map, the output map
and the interrupt channel only, and `BlockState` (block.go:30-35) holds no
internal scratch map — `crank` returns the block to the state of a fresh
block, so nothing persists across cycles.  The library `first` kernel
(library.go:68) does produce true then false, but only by reading and
writing the `internal` parameter of the five-parameter library kernel
signature, which the three-argument engine invocation never supplies: no
engine-side kernel can output true on one invocation and false on a later
invocation with the same input map. -/
theorem c6_engine_passes_no_internal (k : EngineKernel) (iv : MessageMap)
    (s : BlockState) (n : Nat) :
    crank s = newBlockState ∧
    firstOutputs (n+1) []
      = [(0, Message.bool true)] :: List.replicate n [(0, Message.bool false)] ∧
    ¬(engineCycleOutput k iv = [(0, Message.bool true)] ∧
      engineCycleOutput k iv = [(0, Message.bool false)]) := by
  refine ⟨crank_eq_newBlockState s, ?_, ?_⟩
  · simp [firstOutputs, firstKernel, List.lookup]
    exact firstOutputs_replicate n [(0, Message.null)] Message.null rfl
  · rintro ⟨h1, h2⟩
    rw [h1] at h2
    simp at h2

/-- C6, witness at a concrete kernel, input map, state and cycle count. -/
theorem c6_engine_passes_no_internal_applied :
    crank { inputValues := [(0, Message.num 1)], outputValues := [],
            manifest := [("out", 3)], processed := true } = newBlockState ∧
    firstOutputs 2 []
      = [(0, Message.bool true)] :: List.replicate 1 [(0, Message.bool false)] ∧
    ¬(engineCycleOutput (fun _ => ([], false)) [] = [(0, Message.bool true)] ∧
      engineCycleOutput (fun _ => ([], false)) [] = [(0, Message.bool false)]) :=
  c6_engine_passes_no_internal (fun _ => ([], false)) [] _ 1

/-! ## Claim C7 — cycle-state clean slate -/

/-- C7: at the start of every cycle — right after `NewBlock` and right
after every `crank` — the input-value map, the output-value map and the
manifest are empty and `Processed` is false. -/
theorem c7_clean_slate (s : BlockState) :
    (crank s).inputValues = [] ∧ (crank s).outputValues = [] ∧
    (crank s).manifest = [] ∧ (crank s).processed = false ∧
    newBlockState.inputValues = [] ∧ newBlockState.outputValues = [] ∧
    newBlockState.manifest = [] ∧ newBlockState.processed = false := by
  have h := crank_eq_newBlockState s
  rw [h]
  exact ⟨rfl, rfl, rfl, rfl, rfl, rfl, rfl, rfl⟩

/-- C7, witness at a concrete dirty state. -/
theorem c7_clean_slate_applied :
    (crank { inputValues := [(0, Message.num 1)], outputValues := [(0, Message.null)],
             manifest := [("out", 3)], processed := true }).inputValues = [] ∧
    (crank { inputValues := [(0, Message.num 1)], outputValues := [(0, Message.null)],
             manifest := [("out", 3)], processed := true }).outputValues = [] ∧
    (crank { inputValues := [(0, Message.num 1)], outputValues := [(0, Message.null)],
             manifest := [("out", 3)], processed := true }).manifest = [] ∧
    (crank { inputValues := [(0, Message.num 1)], outputValues := [(0, Message.null)],
             manifest := [("out", 3)], processed := true }).processed = false ∧
    newBlockState.inputValues = [] ∧ newBlockState.outputValues = [] ∧
    newBlockState.manifest = [] ∧ newBlockState.processed = false :=
  c7_clean_slate _

/-! ## Claim C8 — append then head -/

/-- C8: for a non-empty array `A = x :: xs` and element `e`, `append`
produces `A ++ [e]`, and feeding that into `head` yields `A[0] = x` on
the first output and `A[1:] ++ [e] = xs ++ [e]` on the second. -/
theorem c8_append_then_head (e x : Message) (xs : List Message) :
    appendKernel [(0, e), (1, Message.seq (x :: xs))]
        = KResult.ok [(0, Message.seq (x :: xs ++ [e]))] ∧
    headKernel [(0, Message.seq (x :: xs ++ [e]))]
        = KResult.ok [(0, x), (1, Message.seq (xs ++ [e]))] := by
  constructor
  · simp [appendKernel, mget, List.lookup]
  · simp [headKernel, mget, List.lookup]

/-- C8, witness at `A = [10, 20]`, `e = 30`. -/
theorem c8_append_then_head_applied :
    appendKernel [(0, Message.num 30), (1, Message.seq [Message.num 10, Message.num 20])]
        = KResult.ok [(0, Message.seq [Message.num 10, Message.num 20, Message.num 30])] ∧
    headKernel [(0, Message.seq [Message.num 10, Message.num 20, Message.num 30])]
        = KResult.ok [(0, Message.num 10),
                      (1, Message.seq [Message.num 20, Message.num 30])] :=
  c8_append_then_head (Message.num 30) (Message.num 10) [Message.num 20]

/-! ## Claim C9 — structural equality kernels -/

/-- C9, counterexample.  Two empty sequences are structurally equal, but
Go `==` on two slice-typed interface values panics (uncomparable dynamic
type), so both `==` and `!=` crash instead of emitting a boolean. -/
theorem c9_equal_seqs_panic :
    equalToKernel [(0, Message.seq []), (1, Message.seq [])]
      = KResult.panic "runtime error: comparing uncomparable type" ∧
    notEqualToKernel [(0, Message.seq []), (1, Message.seq [])]
      = KResult.panic "runtime error: comparing uncomparable type" := ⟨rfl, rfl⟩

/-- C9, amended: for scalar inputs (number, boolean, string, null) the
`==` kernel outputs exactly structural equality and `!=` its negation,
without crashing; when both inputs are sequences or both are mappings the
kernels panic with Go's uncomparable-type runtime error. -/
theorem c9_amended_equality (a b : Message) (xs ys : List Message)
    (kvs kvs' : List (String × Message))
    (ha : isScalar a = true) (hb : isScalar b = true) :
    (∃ v : Bool,
      equalToKernel [(0, a), (1, b)] = KResult.ok [(0, Message.bool v)] ∧
      notEqualToKernel [(0, a), (1, b)] = KResult.ok [(0, Message.bool (!v))] ∧
      (v = true ↔ a = b)) ∧
    equalToKernel [(0, Message.seq xs), (1, Message.seq ys)]
      = KResult.panic "runtime error: comparing uncomparable type" ∧
    equalToKernel [(0, Message.obj kvs), (1, Message.obj kvs')]
      = KResult.panic "runtime error: comparing uncomparable type" := by
  refine ⟨?_, ?_, ?_⟩
  · obtain ⟨v, hv, hiff⟩ := goEq_scalar a b ha hb
    exact ⟨v, by simp [equalToKernel, mget, List.lookup, hv],
           by simp [notEqualToKernel, mget, List.lookup, hv], hiff⟩
  · simp [equalToKernel, mget, List.lookup, goEq]
  · simp [equalToKernel, mget, List.lookup, goEq]

/-- C9, witness for the amended theorem at concrete inputs. -/
theorem c9_amended_equality_applied :
    isScalar (Message.num 2) = true ∧ isScalar (Message.num 2) = true ∧
    ((∃ v : Bool,
      equalToKernel [(0, Message.num 2), (1, Message.num 2)]
        = KResult.ok [(0, Message.bool v)] ∧
      notEqualToKernel [(0, Message.num 2), (1, Message.num 2)]
        = KResult.ok [(0, Message.bool (!v))] ∧
      (v = true ↔ Message.num 2 = Message.num 2)) ∧
    equalToKernel [(0, Message.seq [Message.num 1]), (1, Message.seq [Message.num 1])]
      = KResult.panic "runtime error: comparing uncomparable type" ∧
    equalToKernel [(0, Message.obj []), (1, Message.obj [])]
      = KResult.panic "runtime error: comparing uncomparable type") :=
  ⟨rfl, rfl, c9_amended_equality _ _ _ _ _ _ rfl rfl⟩

/-! ## Claim C10 — head kernel bounds -/

/-- C10: the `head` kernel's variant check rejects non-arrays with an
error-typed output, but accepts the empty array, for which the `arr[0]`
access is out of bounds (a panic) rather than an error output; only for
non-empty arrays are the accesses in bounds. -/
theorem c10_head_bounds (m x : Message) (xs : List Message)
    (hm : isSeq m = false) :
    headKernel [(0, m)] = KResult.ok [(0, Message.err "head requires an array")] ∧
    headKernel [(0, Message.seq [])]
      = KResult.panic "runtime error: index out of range" ∧
    headKernel [(0, Message.seq (x :: xs))]
      = KResult.ok [(0, x), (1, Message.seq xs)] := by
  refine ⟨?_, rfl, ?_⟩
  · cases m <;> simp_all [headKernel, mget, List.lookup, isSeq]
  · simp [headKernel, mget, List.lookup]

/-! ## Claim C3 — per-cycle delivery -/

theorem pairCount_eq_zero (p : MPair) (l : List MPair) (h : p ∉ l) :
    pairCount p l = 0 := by
  induction l with
  | nil => rfl
  | cons a l ih =>
    have hne : ¬(a = p) := fun he => h (he ▸ List.mem_cons_self a l)
    simp only [pairCount, List.filter_cons]
    rw [if_neg (by simp [hne])]
    exact ih (fun hm => h (List.mem_cons_of_mem a hm))

theorem pairCount_eq_one (p : MPair) (l : List MPair) (hn : l.Nodup) (h : p ∈ l) :
    pairCount p l = 1 := by
  induction l with
  | nil => cases h
  | cons a l ih =>
    obtain ⟨hna, hnl⟩ := List.nodup_cons.mp hn
    rcases List.mem_cons.mp h with rfl | hmem
    · have h0 : pairCount p l = 0 := pairCount_eq_zero p l hna
      simp only [pairCount, List.filter_cons] at h0 ⊢
      rw [if_pos (by simp)]
      simp [h0]
    · have hne : ¬(a = p) := fun he => hna (he ▸ hmem)
      simp only [pairCount, List.filter_cons]
      rw [if_neg (by simp [hne])]
      exact ih hnl hmem

theorem mem_cyclePairs (outs : List Output) (p : MPair) :
    p ∈ cyclePairs outs ↔ ∃ o, o ∈ outs ∧ p.1 = o.name ∧ p.2 ∈ o.connections := by
  obtain ⟨p1, p2⟩ := p
  simp only [cyclePairs, List.mem_flatMap, List.mem_map, Prod.mk.injEq]
  constructor
  · rintro ⟨o, ho, c, hc, rfl, rfl⟩
    exact ⟨o, ho, rfl, hc⟩
  · rintro ⟨o, ho, rfl, hc⟩
    exact ⟨o, ho, p2, hc, rfl, rfl⟩

theorem broadcastConns_mono (name : String) (cs : List Nat)
    (man' log' : List MPair) (sch' : List Bool) (i : Bool) :
    ∀ (man log : List MPair) (sch : List Bool),
      broadcastConns name cs man log sch = (man', log', sch', i) →
      ∀ p, p ∈ man → p ∈ man' := by
  induction cs with
  | nil =>
    intro man log sch h p hp
    simp only [broadcastConns, Prod.mk.injEq] at h
    obtain ⟨rfl, rfl, rfl, rfl⟩ := h
    exact hp
  | cons c cs ih =>
    intro man log sch h p hp
    simp only [broadcastConns] at h
    by_cases hmem : (name, c) ∈ man
    · rw [if_pos hmem] at h
      exact ih man log sch h p hp
    · rw [if_neg hmem] at h
      cases sch with
      | nil => exact ih _ _ _ h p (List.mem_cons_of_mem _ hp)
      | cons b sch2 =>
        cases b with
        | true => exact ih _ _ _ h p (List.mem_cons_of_mem _ hp)
        | false =>
          simp only [Prod.mk.injEq] at h
          obtain ⟨rfl, rfl, rfl, rfl⟩ := h
          exact hp

theorem broadcastConns_inv (name : String) (cs : List Nat)
    (man' log' : List MPair) (sch' : List Bool) (i : Bool) :
    ∀ (man log : List MPair) (sch : List Bool),
      broadcastConns name cs man log sch = (man', log', sch', i) →
      log.Nodup → (∀ p, p ∈ log ↔ p ∈ man) →
      log'.Nodup ∧ (∀ p, p ∈ log' ↔ p ∈ man') := by
  induction cs with
  | nil =>
    intro man log sch h hn hiff
    simp only [broadcastConns, Prod.mk.injEq] at h
    obtain ⟨rfl, rfl, rfl, rfl⟩ := h
    exact ⟨hn, hiff⟩
  | cons c cs ih =>
    intro man log sch h hn hiff
    simp only [broadcastConns] at h
    by_cases hmem : (name, c) ∈ man
    · rw [if_pos hmem] at h
      exact ih man log sch h hn hiff
    · rw [if_neg hmem] at h
      have hn' : ((name, c) :: log).Nodup :=
        List.nodup_cons.mpr ⟨fun hc => hmem ((hiff _).mp hc), hn⟩
      have hiff' : ∀ p, p ∈ (name, c) :: log ↔ p ∈ (name, c) :: man := by
        intro p
        simp [List.mem_cons, hiff p]
      cases sch with
      | nil => exact ih _ _ _ h hn' hiff'
      | cons b sch2 =>
        cases b with
        | true => exact ih _ _ _ h hn' hiff'
        | false =>
          simp only [Prod.mk.injEq] at h
          obtain ⟨rfl, rfl, rfl, rfl⟩ := h
          exact ⟨hn, hiff⟩

theorem broadcastConns_new (name : String) (cs : List Nat)
    (man' log' : List MPair) (sch' : List Bool) (i : Bool) :
    ∀ (man log : List MPair) (sch : List Bool),
      broadcastConns name cs man log sch = (man', log', sch', i) →
      ∀ p, p ∈ man' → p ∈ man ∨ (p.1 = name ∧ p.2 ∈ cs) := by
  induction cs with
  | nil =>
    intro man log sch h p hp
    simp only [broadcastConns, Prod.mk.injEq] at h
    obtain ⟨rfl, rfl, rfl, rfl⟩ := h
    exact Or.inl hp
  | cons c cs ih =>
    intro man log sch h p hp
    simp only [broadcastConns] at h
    by_cases hmem : (name, c) ∈ man
    · rw [if_pos hmem] at h
      rcases ih man log sch h p hp with hin | ⟨h1, h2⟩
      · exact Or.inl hin
      · exact Or.inr ⟨h1, List.mem_cons_of_mem _ h2⟩
    · rw [if_neg hmem] at h
      have hcase : ∀ (sch0 : List Bool),
          broadcastConns name cs ((name, c) :: man) ((name, c) :: log) sch0
            = (man', log', sch', i) →
          p ∈ man ∨ p.1 = name ∧ p.2 ∈ c :: cs := by
        intro sch0 h0
        rcases ih _ _ _ h0 p hp with hin | ⟨h1, h2⟩
        · rcases List.mem_cons.mp hin with rfl | hin'
          · exact Or.inr ⟨rfl, List.mem_cons_self _ _⟩
          · exact Or.inl hin'
        · exact Or.inr ⟨h1, List.mem_cons_of_mem _ h2⟩
      cases sch with
      | nil => exact hcase [] h
      | cons b sch2 =>
        cases b with
        | true => exact hcase sch2 h
        | false =>
          simp only [Prod.mk.injEq] at h
          obtain ⟨rfl, rfl, rfl, rfl⟩ := h
          exact Or.inl hp

theorem broadcastConns_complete (name : String) (cs : List Nat)
    (man' log' : List MPair) (sch' : List Bool) :
    ∀ (man log : List MPair) (sch : List Bool),
      broadcastConns name cs man log sch = (man', log', sch', false) →
      ∀ c ∈ cs, (name, c) ∈ man' := by
  induction cs with
  | nil =>
    intro man log sch _ c hc
    exact absurd hc (List.not_mem_nil c)
  | cons c cs ih =>
    intro man log sch h d hd
    simp only [broadcastConns] at h
    by_cases hmem : (name, c) ∈ man
    · rw [if_pos hmem] at h
      rcases List.mem_cons.mp hd with rfl | hd'
      · exact broadcastConns_mono name cs man' log' sch' false man log sch h (name, d) hmem
      · exact ih man log sch h d hd'
    · rw [if_neg hmem] at h
      have hcase : ∀ (sch0 : List Bool),
          broadcastConns name cs ((name, c) :: man) ((name, c) :: log) sch0
            = (man', log', sch', false) →
          (name, d) ∈ man' := by
        intro sch0 h0
        rcases List.mem_cons.mp hd with rfl | hd'
        · exact broadcastConns_mono name cs man' log' sch' false _ _ _ h0 (name, d)
            (List.mem_cons_self _ _)
        · exact ih _ _ _ h0 d hd'
      cases sch with
      | nil => exact hcase [] h
      | cons b sch2 =>
        cases b with
        | true => exact hcase sch2 h
        | false =>
          simp only [Prod.mk.injEq] at h
          cases h.2.2.2

theorem broadcastOuts_mono (outs : List Output)
    (man' log' : List MPair) (sch' : List Bool) (i : Bool) :
    ∀ (man log : List MPair) (sch : List Bool),
      broadcastOuts outs man log sch = (man', log', sch', i) →
      ∀ p, p ∈ man → p ∈ man' := by
  induction outs with
  | nil =>
    intro man log sch h p hp
    simp only [broadcastOuts, Prod.mk.injEq] at h
    obtain ⟨rfl, rfl, rfl, rfl⟩ := h
    exact hp
  | cons o os ih =>
    intro man log sch h p hp
    simp only [broadcastOuts] at h
    by_cases hc : o.connections = []
    · rw [if_pos hc] at h
      simp only [Prod.mk.injEq] at h
      obtain ⟨rfl, rfl, rfl, rfl⟩ := h
      exact hp
    · rw [if_neg hc] at h
      rcases hbc : broadcastConns o.name o.connections man log sch with ⟨man2, log2, sch2, i2⟩
      rw [hbc] at h
      have hmono := broadcastConns_mono o.name o.connections man2 log2 sch2 i2 man log sch hbc
      cases i2 with
      | true =>
        simp only [Prod.mk.injEq] at h
        obtain ⟨rfl, rfl, rfl, rfl⟩ := h
        exact hmono p hp
      | false => exact ih man2 log2 sch2 h p (hmono p hp)

theorem broadcastOuts_inv (outs : List Output)
    (man' log' : List MPair) (sch' : List Bool) (i : Bool) :
    ∀ (man log : List MPair) (sch : List Bool),
      broadcastOuts outs man log sch = (man', log', sch', i) →
      log.Nodup → (∀ p, p ∈ log ↔ p ∈ man) →
      log'.Nodup ∧ (∀ p, p ∈ log' ↔ p ∈ man') := by
  induction outs with
  | nil =>
    intro man log sch h hn hiff
    simp only [broadcastOuts, Prod.mk.injEq] at h
    obtain ⟨rfl, rfl, rfl, rfl⟩ := h
    exact ⟨hn, hiff⟩
  | cons o os ih =>
    intro man log sch h hn hiff
    simp only [broadcastOuts] at h
    by_cases hc : o.connections = []
    · rw [if_pos hc] at h
      simp only [Prod.mk.injEq] at h
      obtain ⟨rfl, rfl, rfl, rfl⟩ := h
      exact ⟨hn, hiff⟩
    · rw [if_neg hc] at h
      rcases hbc : broadcastConns o.name o.connections man log sch with ⟨man2, log2, sch2, i2⟩
      rw [hbc] at h
      have hinv := broadcastConns_inv o.name o.connections man2 log2 sch2 i2 man log sch
        hbc hn hiff
      cases i2 with
      | true =>
        simp only [Prod.mk.injEq] at h
        obtain ⟨rfl, rfl, rfl, rfl⟩ := h
        exact hinv
      | false => exact ih man2 log2 sch2 h hinv.1 hinv.2

theorem broadcastOuts_new (outs : List Output)
    (man' log' : List MPair) (sch' : List Bool) (i : Bool) :
    ∀ (man log : List MPair) (sch : List Bool),
      broadcastOuts outs man log sch = (man', log', sch', i) →
      ∀ p, p ∈ man' → p ∈ man ∨ p ∈ cyclePairs outs := by
  induction outs with
  | nil =>
    intro man log sch h p hp
    simp only [broadcastOuts, Prod.mk.injEq] at h
    obtain ⟨rfl, rfl, rfl, rfl⟩ := h
    exact Or.inl hp
  | cons o os ih =>
    intro man log sch h p hp
    simp only [broadcastOuts] at h
    by_cases hc : o.connections = []
    · rw [if_pos hc] at h
      simp only [Prod.mk.injEq] at h
      obtain ⟨rfl, rfl, rfl, rfl⟩ := h
      exact Or.inl hp
    · rw [if_neg hc] at h
      rcases hbc : broadcastConns o.name o.connections man log sch with ⟨man2, log2, sch2, i2⟩
      rw [hbc] at h
      have hnew := broadcastConns_new o.name o.connections man2 log2 sch2 i2 man log sch hbc
      have absorb : ∀ q, q ∈ man2 → q ∈ man ∨ q ∈ cyclePairs (o :: os) := by
        intro q hq
        rcases hnew q hq with hin | ⟨h1, h2⟩
        · exact Or.inl hin
        · exact Or.inr ((mem_cyclePairs _ _).mpr ⟨o, List.mem_cons_self _ _, h1, h2⟩)
      cases i2 with
      | true =>
        simp only [Prod.mk.injEq] at h
        obtain ⟨rfl, rfl, rfl, rfl⟩ := h
        exact absorb p hp
      | false =>
        rcases ih man2 log2 sch2 h p hp with hin | hcp
        · exact absorb p hin
        · exact Or.inr ((mem_cyclePairs _ _).mpr
            (by
              rcases (mem_cyclePairs os p).mp hcp with ⟨o', ho', h1, h2⟩
              exact ⟨o', List.mem_cons_of_mem _ ho', h1, h2⟩))

theorem broadcastOuts_complete (outs : List Output)
    (man' log' : List MPair) (sch' : List Bool) :
    ∀ (man log : List MPair) (sch : List Bool),
      broadcastOuts outs man log sch = (man', log', sch', false) →
      ∀ p ∈ cyclePairs outs, p ∈ man' := by
  induction outs with
  | nil =>
    intro man log sch _ p hp
    simp [cyclePairs] at hp
  | cons o os ih =>
    intro man log sch h p hp
    simp only [broadcastOuts] at h
    by_cases hc : o.connections = []
    · rw [if_pos hc] at h
      simp only [Prod.mk.injEq] at h
      cases h.2.2.2
    · rw [if_neg hc] at h
      rcases hbc : broadcastConns o.name o.connections man log sch with ⟨man2, log2, sch2, i2⟩
      rw [hbc] at h
      cases i2 with
      | true =>
        simp only [Prod.mk.injEq] at h
        cases h.2.2.2
      | false =>
        rcases (mem_cyclePairs (o :: os) p).mp hp with ⟨o', ho', hname, hconn⟩
        rcases List.mem_cons.mp ho' with rfl | ho2
        · have hin2 : p ∈ man2 := by
            have hm := broadcastConns_complete o'.name o'.connections man2 log2 sch2
              man log sch hbc p.2 hconn
            have hpe : p = (o'.name, p.2) := Prod.ext hname rfl
            rw [hpe]
            exact hm
          exact broadcastOuts_mono os man' log' sch' false man2 log2 sch2 h p hin2
        · exact ih man2 log2 sch2 h p ((mem_cyclePairs os p).mpr ⟨o', ho2, hname, hconn⟩)

theorem runBroadcast_inv (outs : List Output) (man' log' : List MPair) (d : Bool) :
    ∀ (attempts : List (List Bool)) (man log : List MPair),
      runBroadcast outs attempts man log = (man', log', d) →
      log.Nodup → (∀ p, p ∈ log ↔ p ∈ man) →
      log'.Nodup ∧ (∀ p, p ∈ log' ↔ p ∈ man') := by
  intro attempts
  induction attempts with
  | nil =>
    intro man log h hn hiff
    simp only [runBroadcast, Prod.mk.injEq] at h
    obtain ⟨rfl, rfl, rfl⟩ := h
    exact ⟨hn, hiff⟩
  | cons sch rest ih =>
    intro man log h hn hiff
    simp only [runBroadcast] at h
    rcases hbo : broadcastOuts outs man log sch with ⟨man2, log2, sch2, i2⟩
    rw [hbo] at h
    have hinv := broadcastOuts_inv outs man2 log2 sch2 i2 man log sch hbo hn hiff
    cases i2 with
    | true => exact ih man2 log2 h hinv.1 hinv.2
    | false =>
      simp only [Prod.mk.injEq] at h
      obtain ⟨rfl, rfl, rfl⟩ := h
      exact hinv

theorem runBroadcast_new (outs : List Output) (man' log' : List MPair) (d : Bool) :
    ∀ (attempts : List (List Bool)) (man log : List MPair),
      runBroadcast outs attempts man log = (man', log', d) →
      ∀ p, p ∈ man' → p ∈ man ∨ p ∈ cyclePairs outs := by
  intro attempts
  induction attempts with
  | nil =>
    intro man log h p hp
    simp only [runBroadcast, Prod.mk.injEq] at h
    obtain ⟨rfl, rfl, rfl⟩ := h
    exact Or.inl hp
  | cons sch rest ih =>
    intro man log h p hp
    simp only [runBroadcast] at h
    rcases hbo : broadcastOuts outs man log sch with ⟨man2, log2, sch2, i2⟩
    rw [hbo] at h
    have hnew := broadcastOuts_new outs man2 log2 sch2 i2 man log sch hbo
    cases i2 with
    | true =>
      rcases ih man2 log2 h p hp with hin | hcp
      · exact hnew p hin
      · exact Or.inr hcp
    | false =>
      simp only [Prod.mk.injEq] at h
      obtain ⟨rfl, rfl, rfl⟩ := h
      exact hnew p hp

theorem runBroadcast_complete (outs : List Output) (man' log' : List MPair) :
    ∀ (attempts : List (List Bool)) (man log : List MPair),
      runBroadcast outs attempts man log = (man', log', true) →
      ∀ p ∈ cyclePairs outs, p ∈ man' := by
  intro attempts
  induction attempts with
  | nil =>
    intro man log h
    simp only [runBroadcast, Prod.mk.injEq] at h
    cases h.2.2
  | cons sch rest ih =>
    intro man log h p hp
    simp only [runBroadcast] at h
    rcases hbo : broadcastOuts outs man log sch with ⟨man2, log2, sch2, i2⟩
    rw [hbo] at h
    cases i2 with
    | true => exact ih man2 log2 h p hp
    | false =>
      simp only [Prod.mk.injEq] at h
      obtain ⟨rfl, rfl, -⟩ := h
      exact broadcastOuts_complete outs _ _ sch2 man log sch hbo p hp

/-- C3, counterexample.  A block with outputs named `head` and `tail`
that both hold the same connection 7: the cycle completes and connection
7 receives two messages, because the manifest keys deliveries by
(output-name, connection) pair, not by connection — contrary to the claim
that every connection of a connected output receives exactly one message
per completed cycle. -/
theorem c3_shared_connection_two_messages :
    (runBroadcast [⟨"head", [7]⟩, ⟨"tail", [7]⟩] [[true, true]] [] []).2.2 = true ∧
    ((runBroadcast [⟨"head", [7]⟩, ⟨"tail", [7]⟩] [[true, true]] [] []).2.1.filter
        (fun p => p.2 == 7)).length = 2 := ⟨rfl, rfl⟩

/-- C3, amended: per completed cycle, each distinct (output-name,
connection) pair is delivered exactly one message, whatever interrupts
suspend and resume the broadcast — the manifest prevents re-delivery on
resumption.  In particular a connection held by exactly one output
receives exactly one message; a connection registered under several
distinct output names receives one message per name. -/
theorem c3_amended_per_pair (outs : List Output) (attempts : List (List Bool))
    (man' log' : List MPair)
    (h : runBroadcast outs attempts [] [] = (man', log', true)) :
    ∀ p : MPair, pairCount p log' = if p ∈ cyclePairs outs then 1 else 0 := by
  obtain ⟨hnodup, hiff⟩ := runBroadcast_inv outs man' log' true attempts [] [] h
    List.nodup_nil (by simp)
  have hsub : ∀ p, p ∈ man' → p ∈ cyclePairs outs := by
    intro p hp
    rcases runBroadcast_new outs man' log' true attempts [] [] h p hp with hin | hcp
    · simp at hin
    · exact hcp
  have hsup : ∀ p ∈ cyclePairs outs, p ∈ man' :=
    runBroadcast_complete outs man' log' attempts [] [] h
  intro p
  by_cases hp : p ∈ cyclePairs outs
  · rw [if_pos hp]
    exact pairCount_eq_one p log' hnodup ((hiff p).mpr (hsup p hp))
  · rw [if_neg hp]
    exact pairCount_eq_zero p log' (fun hc => hp (hsub p ((hiff p).mp hc)))

/-- C3, witness for the amended theorem: one output with two connections,
interrupted after the first delivery; on resumption only the second
connection is served, and each pair counts exactly one delivery. -/
theorem c3_amended_per_pair_applied :
    runBroadcast [⟨"out", [1, 2]⟩] [[true, false], [true]] [] []
      = ([("out", 2), ("out", 1)], [("out", 2), ("out", 1)], true) ∧
    (pairCount ("out", 1) [("out", 2), ("out", 1)]
        = if (("out", 1) : MPair) ∈ cyclePairs [⟨"out", [1, 2]⟩] then 1 else 0) ∧
    (pairCount ("out", 3) [("out", 2), ("out", 1)]
        = if (("out", 3) : MPair) ∈ cyclePairs [⟨"out", [1, 2]⟩] then 1 else 0) :=
  ⟨rfl,
   c3_amended_per_pair [⟨"out", [1, 2]⟩] [[true, false], [true]]
     [("out", 2), ("out", 1)] [("out", 2), ("out", 1)] rfl ("out", 1),
   c3_amended_per_pair [⟨"out", [1, 2]⟩] [[true, false], [true]]
     [("out", 2), ("out", 1)] [("out", 2), ("out", 1)] rfl ("out", 3)⟩

/-! ## Claim C4 — kernel singleton per cycle -/

/-- Once `Processed` is true, later loop-body passes never invoke the
kernel, whatever interrupts occur, until the cycle completes. -/
theorem runCycle_processed_true (as : List Attempt) (s s' : ServeState) (d : Bool)
    (hp : s.processed = true) (h : runCycle s as = (s', d)) :
    s'.kernelRuns = s.kernelRuns := by
  induction as generalizing s with
  | nil =>
    simp only [runCycle] at h
    cases h
    rfl
  | cons a rest ih =>
    by_cases hr : a.rIntr = true
    · simp only [runCycle, serveBody, hr, if_true] at h
      exact ih s hp h
    · by_cases hb : a.bIntr = true
      · simp only [runCycle, serveBody, hr, hp, if_false, if_true,
          Bool.true_eq_false, if_neg (Bool.false_ne_true), hb] at h
        have := ih ⟨true, s.kernelRuns⟩ rfl h
        simpa using this
      · simp only [runCycle, serveBody, hr, hp, Bool.true_eq_false, hb] at h
        simp at h
        cases h.1
        simp [← h.2]

/-- C4, counterexample.  A kernel that returns an interrupt breaks out of
the loop body *before* `Processed = true` (block.go:59-63), so on
resumption the kernel is invoked again: the completed cycle below runs
the kernel twice, and `Processed` is still false right after the kernel
returned its interrupt — contrary to the claim. -/
theorem c4_kernel_reruns_after_own_interrupt :
    (runCycle ⟨false, 0⟩ [⟨false, true, false⟩, ⟨false, false, false⟩]).2 = true ∧
    (runCycle ⟨false, 0⟩ [⟨false, true, false⟩, ⟨false, false, false⟩]).1.kernelRuns = 2 ∧
    (serveBody ⟨false, 0⟩ ⟨false, true, false⟩).1.processed = false :=
  ⟨rfl, rfl, rfl⟩

/-- C4, amended: provided the kernel itself never returns an interrupt,
every completed cycle invokes the kernel exactly once — interrupts during
receive or broadcast never cause re-invocation, because `Processed` is
set to true after a kernel return with no interrupt.  (When the kernel
does return an interrupt, `Processed` stays false and the kernel is
re-invoked on resumption.) -/
theorem c4_amended_kernel_once (as : List Attempt) (s' : ServeState)
    (hk : ∀ a ∈ as, a.kIntr = false)
    (hc : runCycle ⟨false, 0⟩ as = (s', true)) :
    s'.kernelRuns = 1 := by
  induction as with
  | nil => simp [runCycle] at hc
  | cons a rest ih =>
    have hka : a.kIntr = false := hk a (by simp)
    by_cases hr : a.rIntr = true
    · simp only [runCycle, serveBody, hr, if_true] at hc
      exact ih (fun x hx => hk x (by simp [hx])) hc
    · by_cases hb : a.bIntr = true
      · simp only [runCycle, serveBody, hr, hka, hb, Bool.false_eq_true,
          if_false, if_true] at hc
        exact runCycle_processed_true rest ⟨true, 1⟩ s' true rfl hc
      · simp only [runCycle, serveBody, hr, hka, hb, Bool.false_eq_true,
          if_false] at hc
        simp at hc
        cases hc
        rfl

/-- C4, witness: a cycle whose single pass has no interrupts at all runs
the kernel exactly once. -/
theorem c4_amended_kernel_once_applied :
    (∀ a ∈ [(⟨false, false, false⟩ : Attempt)], a.kIntr = false) ∧
    runCycle ⟨false, 0⟩ [⟨false, false, false⟩] = (⟨false, 1⟩, true) ∧
    (⟨false, 1⟩ : ServeState).kernelRuns = 1 :=
  ⟨by simp, rfl, c4_amended_kernel_once [⟨false, false, false⟩] ⟨false, 1⟩ (by simp) rfl⟩

/-- C10, witness at concrete inputs. -/
theorem c10_head_bounds_applied :
    isSeq (Message.num 3) = false ∧
    (headKernel [(0, Message.num 3)]
        = KResult.ok [(0, Message.err "head requires an array")] ∧
    headKernel [(0, Message.seq [])]
        = KResult.panic "runtime error: index out of range" ∧
    headKernel [(0, Message.seq [Message.num 7])]
        = KResult.ok [(0, Message.num 7), (1, Message.seq [])]) :=
  ⟨rfl, c10_head_bounds (Message.num 3) (Message.num 7) [] rfl⟩

end STCore
